import Mathlib

/-!
Verification of the elements-inspector tree view
(`src/ui/components/elements-inspector/elements.js`).

The development shallowly embeds the logic of that file:
* the data model (`Element`, stores keyed by `ElementID`, `FlatElement`);
* `Elements.setProps` and its inner recursive `seed` walk (flattening),
  with an explicit fuel parameter bounding recursion depth, since the
  JavaScript recursion has no intrinsic termination guarantee on
  ill-formed (cyclic) stores;
* `Elements.onKeyDown` (keyboard navigation), returning the list of
  emitted requests, or an error when the JavaScript code would throw;
* `Elements.buildRow`'s childrenCount loop;
* `PartialHighlight.render` and `ElementsRowAttribute.render`
  (search-match highlighting), with JS strings embedded as `List Char`
  and `toLowerCase` as a character-wise lowering map.
-/

namespace Flipper

/-- Element identities are the keys of the `elements` object
(`elements: {[key: ElementID]: Element}`); JavaScript object keys are
strings. -/
abbrev ElementID := String

/-- One attribute `(name, value)` pair of an element. -/
structure ElementAttribute where
  name : String
  value : List Char
  deriving DecidableEq, Inhabited

/-- An element of the inspected tree.  `children` is nullable: the
flatten walk guards with `element.children != null`. -/
structure Element where
  name : List Char
  expanded : Bool
  children : Option (List ElementID)
  attributes : List ElementAttribute
  deriving DecidableEq, Inhabited

/-- The tree store `props.elements`: a map from identity to element;
lookup of an absent identity yields `none` (JS `undefined`). -/
abbrev Store := ElementID → Option Element

/-- One row of the flattened projection (type `FlatElement` in the
source). -/
structure FlatElement where
  key : ElementID
  element : Element
  level : Nat
  deriving DecidableEq, Inhabited

/-- The condition under which `seed` descends into a node's children:
`element.children != null && element.children.length > 0 &&
element.expanded`. -/
def hasVisibleChildren (e : Element) : Bool :=
  (match e.children with
   | none => false
   | some cs => decide (0 < cs.length)) && e.expanded

/-- The child list iterated by `seed` (only reached when
`hasVisibleChildren` holds, so the `none` default is never observed
there). -/
def childKeys (e : Element) : List ElementID :=
  e.children.getD []

/-- The recursive `seed` walk of `Elements.setProps`: visit `key` at
`level`; a missing element contributes nothing; otherwise push one row
and, if the element has visible children, walk each child in stored
order at `level + 1`.  `fuel` bounds the recursion depth; the
JavaScript function is the limit of this family as fuel grows (it
diverges on cyclic stores, where this family never stabilises). -/
def seed (elements : Store) : Nat → ElementID → Nat → List FlatElement
  | 0, _, _ => []
  | fuel + 1, key, level =>
    match elements key with
    | none => []
    | some element =>
      { key := key, element := element, level := level } ::
        (if hasVisibleChildren element then
          (childKeys element).flatMap (fun k => seed elements fuel k (level + 1))
        else [])

/-- The rows produced by `setProps`: `seed(root, 1)` when `props.root`
is non-null, nothing otherwise. -/
def setPropsFlatElements (elements : Store) (fuel : Nat) (root : Option ElementID) :
    List FlatElement :=
  match root with
  | none => []
  | some r => seed elements fuel r 1

/-- The component state computed by `setProps`: the rows, the parallel
key array, and the maximum level observed (0 when there are no rows). -/
structure ElementsState where
  flatElements : List FlatElement
  flatKeys : List ElementID
  maxDepth : Nat
  deriving DecidableEq

/-- `Elements.setProps`: build `flatElements` and `flatKeys` (pushed in
lockstep, so the key array is the row-wise projection of the rows) and
`maxDepth` (running maximum of the pushed levels, starting at 0). -/
def setProps (elements : Store) (fuel : Nat) (root : Option ElementID) : ElementsState :=
  { flatElements := setPropsFlatElements elements fuel root
    flatKeys := (setPropsFlatElements elements fuel root).map FlatElement.key
    maxDepth := (setPropsFlatElements elements fuel root).foldl (fun m r => max m r.level) 0 }

/-- JavaScript `Array.prototype.indexOf`: index of the first occurrence,
`none` (JS `-1`) when absent. -/
def jsIndexOf : List ElementID → ElementID → Option Nat
  | [], _ => none
  | x :: xs, a => if x = a then some 0 else (jsIndexOf xs a).map (· + 1)

/-- The requests `onKeyDown` can emit to the host: `onElementSelected`,
`onElementExpanded`, and a clipboard write. -/
inductive Effect where
  | select (key : ElementID)
  | setExpanded (key : ElementID) (deep : Bool)
  | copyText (text : List Char)
  deriving DecidableEq

/-- A JavaScript runtime exception. -/
inductive JsError where
  | typeError
  deriving DecidableEq

/-- The discrete key events handled by `Elements.onKeyDown`
(`copyKey` is the `'c'` + platform-modifier combination). -/
inductive KeyEvt where
  | arrowUp
  | arrowDown
  | arrowLeft
  | arrowRight
  | copyKey
  deriving DecidableEq

/-- The backward scan of the ArrowLeft "jump to parent" branch: for `i`
from `selectedIndex` down to `0`, stop at the first row whose level
equals `targetLevel` and take the corresponding key. -/
def scanBack (flatElements : List FlatElement) (flatKeys : List ElementID)
    (targetLevel : Nat) : Nat → Option ElementID
  | 0 =>
    if (flatElements.getD 0 default).level = targetLevel then
      some (flatKeys.getD 0 default)
    else none
  | i + 1 =>
    if (flatElements.getD (i + 1) default).level = targetLevel then
      some (flatKeys.getD (i + 1) default)
    else scanBack flatElements flatKeys targetLevel i

/-- `Elements.onKeyDown`, as the list of requests it emits.  The three
guards (null selection, selection absent from `flatKeys`, selection
absent from the store) return before any key handling.  The ArrowRight
branch reads `selectedElement.children.length` without a null check and
therefore throws when `children` is null. -/
def onKeyDown (elements : Store) (flatElements : List FlatElement)
    (flatKeys : List ElementID) (selected : Option ElementID) (evt : KeyEvt) :
    Except JsError (List Effect) :=
  match selected with
  | none => .ok []
  | some sel =>
    match jsIndexOf flatKeys sel with
    | none => .ok []
    | some selectedIndex =>
      match elements sel with
      | none => .ok []
      | some selectedElement =>
        match evt with
        | .copyKey => .ok [.copyText selectedElement.name]
        | .arrowUp =>
          if selectedIndex = 0 ∨ flatKeys.length = 1 then .ok []
          else .ok [.select (flatKeys.getD (selectedIndex - 1) default)]
        | .arrowDown =>
          if selectedIndex = flatKeys.length - 1 then .ok []
          else .ok [.select (flatKeys.getD (selectedIndex + 1) default)]
        | .arrowLeft =>
          if selectedElement.expanded then
            .ok [.setExpanded sel false]
          else
            match scanBack flatElements flatKeys
                ((flatElements.getD selectedIndex default).level - 1) selectedIndex with
            | some parentKey =>
              if parentKey ≠ "" then .ok [.select parentKey] else .ok []
            | none => .ok []
        | .arrowRight =>
          match selectedElement.children with
          | none => .error .typeError
          | some cs =>
            if 0 < cs.length then
              if selectedElement.expanded then .ok [.select (cs.getD 0 default)]
              else .ok [.setExpanded sel false]
            else .ok []

/-- The counting loop of `Elements.buildRow` applied to the rows after
the current index: count rows while their level exceeds `rowLevel`,
stopping at the first row whose level is `≤ rowLevel`. -/
def countLoop (rowLevel : Nat) : List FlatElement → Nat
  | [] => 0
  | c :: rest => if c.level ≤ rowLevel then 0 else 1 + countLoop rowLevel rest

/-- `childrenCount` as computed by `Elements.buildRow` for `row` at
`index`: the loop runs over `flatElements[index+1 ..]`. -/
def buildRowChildrenCount (flatElements : List FlatElement) (row : FlatElement)
    (index : Nat) : Nat :=
  countLoop row.level (flatElements.drop (index + 1))

/-- JavaScript `String.prototype.toLowerCase`, character-wise. -/
def toLowerList (s : List Char) : List Char :=
  s.map Char.toLower

/-- JavaScript `String.prototype.indexOf`: position of the first
occurrence of `t` in `s`, `none` (JS `-1`) when there is none. -/
def strIndexOf : List Char → List Char → Option Nat
  | [], t => if t.isPrefixOf ([] : List Char) then some 0 else none
  | c :: s, t =>
    if t.isPrefixOf (c :: s) then some 0 else (strIndexOf s t).map (· + 1)

/-- JavaScript `String.prototype.includes`. -/
def jsIncludes (s t : List Char) : Bool :=
  (strIndexOf s t).isSome

/-- What `PartialHighlight.render` produces: either the content in a
single span, or a three-way split with the middle segment highlighted. -/
inductive Rendered where
  | whole (content : List Char)
  | split (before : List Char) (matched : List Char) (after : List Char)
  deriving DecidableEq

/-- `PartialHighlight.render`: when the content is non-empty, the
highlight string is neither null nor empty, and the lower-cased content
contains the lower-cased highlight, split the content at the first such
occurrence (`substring(0, start)`, `substring(start, start + len)`,
`substring(start + len)`); otherwise render the content whole. -/
def highlightRender (content : List Char) (highlighted : Option (List Char)) : Rendered :=
  match highlighted with
  | none => .whole content
  | some h =>
    if content ≠ [] ∧ h ≠ [] ∧ jsIncludes (toLowerList content) (toLowerList h) then
      let highlightStart := (strIndexOf (toLowerList content) (toLowerList h)).getD 0
      let highlightEnd := highlightStart + h.length
      .split (content.take highlightStart)
        ((content.take highlightEnd).drop highlightStart)
        (content.drop highlightEnd)
    else .whole content

/-- The highlight string `ElementsRowAttribute.render` hands to
`PartialHighlight`: the row's matching query for attributes named `id`
or `addr`, the empty string for every other attribute. -/
def attributeHighlighted (name : String) (matchingSearchQuery : Option (List Char)) :
    Option (List Char) :=
  if name = "id" ∨ name = "addr" then matchingSearchQuery else some []

/-- The rendered value span of `ElementsRowAttribute.render`. -/
def attributeRenderedValue (name : String) (value : List Char)
    (matchingSearchQuery : Option (List Char)) : Rendered :=
  highlightRender value (attributeHighlighted name matchingSearchQuery)

/-- The rendered name of a row (`PartialHighlight` over `element.name`
with the row's matching query). -/
def rowRenderedName (element : Element) (matchingSearchQuery : Option (List Char)) :
    Rendered :=
  highlightRender element.name matchingSearchQuery

/-- The search results handed to the component: the query text plus the
set of matching identities (field `matches` in the source; `matches` is
reserved in Lean). -/
structure ElementSearchResultSet where
  query : List Char
  matchKeys : List ElementID
  deriving DecidableEq

/-- `containsKeyInSearchResults`: non-null result set and membership of
the key in its match set. -/
def containsKeyInSearchResults (searchResults : Option ElementSearchResultSet)
    (key : ElementID) : Bool :=
  match searchResults with
  | none => false
  | some s => s.matchKeys.contains key

/-- The `matchingSearchQuery` prop `Elements.buildRow` passes to a row:
the query when the row's key is in the match set, null otherwise. -/
def rowMatchingSearchQuery (searchResults : Option ElementSearchResultSet)
    (key : ElementID) : Option (List Char) :=
  match searchResults with
  | none => none
  | some s => if s.matchKeys.contains key then some s.query else none

/-! Concrete stores used by witnesses and counterexamples. -/

def aK : ElementID := "a"
def bK : ElementID := "b"
def cK : ElementID := "c"
def dK : ElementID := "d"

/-- A childless, collapsed element. -/
def leafElem (nm : List Char) : Element :=
  { name := nm, expanded := false, children := some [], attributes := [] }

def elemA : Element :=
  { name := "A".data, expanded := true, children := some [bK, cK], attributes := [] }

def elemB : Element :=
  { name := "B".data, expanded := true, children := some [dK], attributes := [] }

def elemC : Element := leafElem "C".data

def elemD : Element := leafElem "D".data

/-- The spec's worked example: `A -> [B, C]`, `B -> [D]`, `A` and `B`
expanded, `C` and `D` leaves. -/
def store1 : Store := fun k =>
  if k = aK then some elemA
  else if k = bK then some elemB
  else if k = cK then some elemC
  else if k = dK then some elemD
  else none

/-! ### Basic facts about the `seed` walk -/

lemma seed_of_missing {elements : Store} {key : ElementID} (h : elements key = none)
    (fuel level : Nat) : seed elements fuel key level = [] := by
  cases fuel with
  | zero => rfl
  | succ n => simp [seed, h]

lemma seed_of_found {elements : Store} {key : ElementID} {e : Element}
    (h : elements key = some e) (fuel level : Nat) :
    seed elements (fuel + 1) key level =
      { key := key, element := e, level := level } ::
        (if hasVisibleChildren e then
          (childKeys e).flatMap (fun k => seed elements fuel k (level + 1))
        else []) := by
  simp [seed, h]

/-- Every row the walk pushes was looked up successfully: its element is
the store's element for its key. -/
lemma mem_seed_store {elements : Store} :
    ∀ (fuel : Nat) {key : ElementID} {level : Nat} {r : FlatElement},
      r ∈ seed elements fuel key level → elements r.key = some r.element := by
  intro fuel
  induction fuel with
  | zero => intro key level r hr; simp [seed] at hr
  | succ n ih =>
    intro key level r hr
    cases h : elements key with
    | none => rw [seed_of_missing h] at hr; simp at hr
    | some e =>
      rw [seed_of_found h] at hr
      rcases List.mem_cons.mp hr with rfl | hr
      · exact h
      · by_cases hv : hasVisibleChildren e
        · rw [if_pos hv] at hr
          obtain ⟨c, _, hc⟩ := List.mem_flatMap.mp hr
          exact ih hc
        · rw [if_neg hv] at hr; simp at hr

/-- Every row of the walk at base `level` has level at least `level`. -/
lemma mem_seed_level_ge {elements : Store} :
    ∀ (fuel : Nat) {key : ElementID} {level : Nat} {r : FlatElement},
      r ∈ seed elements fuel key level → level ≤ r.level := by
  intro fuel
  induction fuel with
  | zero => intro key level r hr; simp [seed] at hr
  | succ n ih =>
    intro key level r hr
    cases h : elements key with
    | none => rw [seed_of_missing h] at hr; simp at hr
    | some e =>
      rw [seed_of_found h] at hr
      rcases List.mem_cons.mp hr with rfl | hr
      · exact Nat.le_refl _
      · by_cases hv : hasVisibleChildren e
        · rw [if_pos hv] at hr
          obtain ⟨c, _, hc⟩ := List.mem_flatMap.mp hr
          exact Nat.le_of_succ_le (ih hc)
        · rw [if_neg hv] at hr; simp at hr

/-- The first row of a (non-empty) walk is at the base level. -/
lemma seed_head_level {elements : Store} {fuel : Nat} {key : ElementID} {level : Nat}
    {r : FlatElement} (h : (seed elements fuel key level).head? = some r) :
    r.level = level := by
  cases fuel with
  | zero => simp [seed] at h
  | succ n =>
    cases he : elements key with
    | none => rw [seed_of_missing he] at h; simp at h
    | some e =>
      rw [seed_of_found he] at h
      injection h with h
      rw [← h]

/-- The first row of a (non-empty) forest of sibling walks is at the
siblings' common level. -/
lemma forest_head_level {elements : Store} {fuel level : Nat} :
    ∀ {cs : List ElementID} {r : FlatElement},
      ((cs.flatMap fun c => seed elements fuel c level).head? = some r) → r.level = level := by
  intro cs
  induction cs with
  | nil => intro r h; simp at h
  | cons c cs ih =>
    intro r h
    rw [List.flatMap_cons, List.head?_append] at h
    cases hc : (seed elements fuel c level).head? with
    | some x =>
      rw [hc] at h
      simp only [Option.or_some] at h
      injection h with h
      rw [← h]; exact seed_head_level hc
    | none => rw [hc] at h; simp only [Option.none_or] at h; exact ih h

/-- The structural relation between two consecutive rows of a walk: the
level grows by at most one, and it only grows when the earlier row's
element has visible children. -/
def rowRel (a b : FlatElement) : Prop :=
  b.level ≤ a.level + 1 ∧ (hasVisibleChildren a.element = true ∨ b.level ≤ a.level)

lemma forest_chain' {elements : Store} {fuel level : Nat}
    (hall : ∀ key, List.Chain' rowRel (seed elements fuel key level)) :
    ∀ cs : List ElementID, List.Chain' rowRel (cs.flatMap fun c => seed elements fuel c level) := by
  intro cs
  induction cs with
  | nil => simp
  | cons c cs ih =>
    rw [List.flatMap_cons]
    refine List.Chain'.append (hall c) ih ?_
    intro x hx y hy
    have hx2 : x ∈ seed elements fuel c level :=
      List.mem_of_mem_getLast? hx
    have hxl : level ≤ x.level := mem_seed_level_ge fuel hx2
    have hyl : y.level = level := forest_head_level (Option.mem_def.mp hy)
    exact ⟨by omega, Or.inr (by omega)⟩

/-- Consecutive rows of the walk are `rowRel`-related. -/
lemma seed_chain' (elements : Store) :
    ∀ (fuel : Nat) (key : ElementID) (level : Nat),
      List.Chain' rowRel (seed elements fuel key level) := by
  intro fuel
  induction fuel with
  | zero => intro key level; simp [seed]
  | succ n ih =>
    intro key level
    cases he : elements key with
    | none => rw [seed_of_missing he]; exact List.chain'_nil
    | some e =>
      rw [seed_of_found he]
      by_cases hv : hasVisibleChildren e
      · rw [if_pos hv]
        refine List.chain'_cons'.mpr ⟨?_, forest_chain' (fun k => ih k (level + 1)) _⟩
        intro y hy
        have hyl : y.level = level + 1 := forest_head_level (Option.mem_def.mp hy)
        exact ⟨Nat.le_of_eq hyl, Or.inl hv⟩
      · rw [if_neg hv]
        simp

/-- Step bound between consecutive rows, in indexed form: the level of
row `k + 1` is at most one more than the level of row `k`. -/
lemma seed_step_le {elements : Store} {fuel : Nat} {key : ElementID} {level : Nat} :
    ∀ k, k + 1 < (seed elements fuel key level).length →
      ((seed elements fuel key level).getD (k + 1) default).level ≤
        ((seed elements fuel key level).getD k default).level + 1 := by
  intro k hk
  have hchain := seed_chain' elements fuel key level
  have hstep := List.chain'_iff_get.mp hchain k (by omega)
  rw [List.getD_eq_getElem _ _ hk, List.getD_eq_getElem _ _ (by omega)]
  simpa [List.get_eq_getElem] using hstep.1

/-- A row of the walk that has no visible children is immediately
followed (if at all) by a row of level no greater than its own. -/
lemma seed_collapsed_next {elements : Store} {fuel : Nat} {key : ElementID} {level : Nat} :
    ∀ k, k + 1 < (seed elements fuel key level).length →
      hasVisibleChildren ((seed elements fuel key level).getD k default).element = false →
      ((seed elements fuel key level).getD (k + 1) default).level ≤
        ((seed elements fuel key level).getD k default).level := by
  intro k hk hcol
  have hchain := seed_chain' elements fuel key level
  have hstep := List.chain'_iff_get.mp hchain k (by omega)
  rw [List.getD_eq_getElem _ _ hk, List.getD_eq_getElem _ _ (by omega)]
  have h2 := hstep.2
  simp only [List.get_eq_getElem] at h2
  rcases h2 with h2 | h2
  · rw [List.getD_eq_getElem _ _ (by omega : k < (seed elements fuel key level).length)] at hcol
    rw [hcol] at h2
    cases h2
  · exact h2

/-- The first row of a non-empty walk sits at the base level. -/
lemma seed_getD_zero_level {elements : Store} {fuel : Nat} {key : ElementID} {level : Nat}
    (h : 0 < (seed elements fuel key level).length) :
    ((seed elements fuel key level).getD 0 default).level = level := by
  cases hs : seed elements fuel key level with
  | nil => rw [hs] at h; simp at h
  | cons a t =>
    have : (seed elements fuel key level).head? = some a := by rw [hs]; rfl
    have := seed_head_level this
    simpa using this

/-- Every row of the walk after the first sits strictly below the base
level (its level is at least `level + 1`). -/
lemma seed_tail_level_ge {elements : Store} {fuel : Nat} {key : ElementID} {level : Nat} :
    ∀ i, 0 < i → i < (seed elements fuel key level).length →
      level + 1 ≤ ((seed elements fuel key level).getD i default).level := by
  intro i hi hilen
  cases fuel with
  | zero => simp [seed] at hilen
  | succ n =>
    cases he : elements key with
    | none => rw [seed_of_missing he] at hilen ⊢; simp at hilen
    | some e =>
      rw [seed_of_found he] at hilen ⊢
      by_cases hv : hasVisibleChildren e
      · rw [if_pos hv] at hilen ⊢
        set forest := (childKeys e).flatMap (fun k => seed elements n k (level + 1)) with hf
        obtain ⟨i2, rfl⟩ : ∃ i2, i = i2 + 1 := ⟨i - 1, by omega⟩
        have hlt : i2 < forest.length := by
          simp only [List.length_cons] at hilen; omega
        have hmem : forest.getD i2 default ∈ forest := by
          rw [List.getD_eq_getElem _ _ hlt]; exact List.getElem_mem hlt
        obtain ⟨c, _, hc⟩ := List.mem_flatMap.mp hmem
        have := mem_seed_level_ge n hc
        simpa using this
      · rw [if_neg hv] at hilen
        simp at hilen; omega

/-- In any list whose consecutive levels grow by at most one, a row
whose level strictly exceeds the first row's level has a "parent": a
nearest earlier row whose level is exactly one less, with every row
between them at a level at least as deep. -/
lemma parent_level_exists {rows : List FlatElement}
    (hstep : ∀ k, k + 1 < rows.length →
      (rows.getD (k + 1) default).level ≤ (rows.getD k default).level + 1)
    {i : Nat} (hi : i < rows.length)
    (hbase : (rows.getD 0 default).level < (rows.getD i default).level) :
    ∃ j, j < i ∧ (rows.getD j default).level + 1 = (rows.getD i default).level ∧
      ∀ k, j < k → k < i → (rows.getD i default).level ≤ (rows.getD k default).level := by
  have hipos : 0 < i := by
    rcases Nat.eq_zero_or_pos i with rfl | h
    · omega
    · exact h
  set P : Nat → Prop := fun j => (rows.getD j default).level < (rows.getD i default).level with hP
  have hdec : DecidablePred P := fun j => by rw [hP]; infer_instance
  set j := Nat.findGreatest P (i - 1) with hj
  have hPj : P j := Nat.findGreatest_spec (Nat.zero_le _) hbase
  have hjle : j ≤ i - 1 := Nat.findGreatest_le _
  have hgreat : ∀ k, j < k → k ≤ i - 1 → ¬P k := by
    intro k hk1 hk2
    exact Nat.findGreatest_is_greatest hk1 hk2
  have hbetween : ∀ k, j < k → k < i → (rows.getD i default).level ≤ (rows.getD k default).level := by
    intro k hk1 hk2
    have := hgreat k hk1 (by omega)
    rw [hP] at this
    omega
  refine ⟨j, by omega, ?_, hbetween⟩
  have hstepj := hstep j (by omega)
  rcases Nat.lt_or_ge (j + 1) i with hlt | hge
  · have := hbetween (j + 1) (by omega) hlt
    rw [hP] at hPj
    omega
  · have : j + 1 = i := by omega
    rw [this] at hstepj
    rw [hP] at hPj
    omega

def rK : ElementID := "r"

def zK : ElementID := "z"

/-- A store whose root lists the same child twice (an ill-formed tree
the spec's robustness invariant talks about). -/
def dupStore : Store := fun k =>
  if k = rK then
    some { name := "R".data, expanded := true, children := some [cK, cK], attributes := [] }
  else if k = cK then some (leafElem "C".data)
  else none

def emptyK : ElementID := ""

/-- A store whose root's identity is the empty string (a legal
JavaScript object key), with one collapsed child. -/
def emptyKeyStore : Store := fun k =>
  if k = emptyK then
    some { name := "R".data, expanded := true, children := some [aK], attributes := [] }
  else if k = aK then some (leafElem "A".data)
  else none

/-- An element whose `children` field is null, as the flatten walk's
`element.children != null` guard anticipates. -/
def nullChildrenElem : Element :=
  { name := "N".data, expanded := false, children := none, attributes := [] }

def nullChildrenStore : Store := fun k =>
  if k = rK then some nullChildrenElem else none

def cycElem : Element :=
  { name := "R".data, expanded := true, children := some [rK], attributes := [] }

/-- A store with a self-cycle: the (expanded) root is its own child. -/
def cycStore : Store := fun k =>
  if k = rK then some cycElem else none

/-! ### Claim theorems -/

/-- C1: the `seed` walk of `setProps` is exactly the pre-order traversal
from the root at level 1: a visited node contributes one row, and the
walk descends into the node's children, in stored order and at
`level + 1`, if and only if it has one or more children and its
expansion flag is true (first conjunct, the walk's recurrence); hence in
the flattened sequence every row of level deeper than the root has a
parent row — a nearest preceding row whose level is exactly one less,
all rows between sitting at least as deep — so each row's level is its
parent row's level plus one, and a node's children rows follow it
immediately exactly when it is expanded (second conjunct). -/
theorem C1_flatten_is_preorder (elements : Store) (fuel : Nat) (key root : ElementID)
    (level : Nat) (e : Element) (h : elements key = some e) :
    (seed elements (fuel + 1) key level =
      { key := key, element := e, level := level } ::
        (if hasVisibleChildren e then
          (childKeys e).flatMap (fun c => seed elements fuel c (level + 1))
        else [])) ∧
    (∀ i, 0 < i → i < (seed elements fuel root 1).length →
      ∃ j, j < i ∧
        ((seed elements fuel root 1).getD j default).level + 1 =
          ((seed elements fuel root 1).getD i default).level ∧
        ∀ k, j < k → k < i →
          ((seed elements fuel root 1).getD i default).level ≤
            ((seed elements fuel root 1).getD k default).level) := by
  constructor
  · exact seed_of_found h fuel level
  · intro i hi hilen
    refine parent_level_exists (fun k hk => seed_step_le k hk) hilen ?_
    rw [seed_getD_zero_level (by omega)]
    have := @seed_tail_level_ge elements fuel root 1 i hi hilen
    omega

/-- Witness for C1 at the spec's worked example, rooted at `A`. -/
theorem C1_flatten_is_preorder_witness :
    store1 aK = some elemA ∧
    ((seed store1 (3 + 1) aK 1 =
      { key := aK, element := elemA, level := 1 } ::
        (if hasVisibleChildren elemA then
          (childKeys elemA).flatMap (fun c => seed store1 3 c (1 + 1))
        else [])) ∧
    (∀ i, 0 < i → i < (seed store1 3 aK 1).length →
      ∃ j, j < i ∧
        ((seed store1 3 aK 1).getD j default).level + 1 =
          ((seed store1 3 aK 1).getD i default).level ∧
        ∀ k, j < k → k < i →
          ((seed store1 3 aK 1).getD i default).level ≤
            ((seed store1 3 aK 1).getD k default).level)) :=
  ⟨rfl, C1_flatten_is_preorder store1 3 aK aK 1 elemA rfl⟩

/-- On the self-cycle store the walk produces one row per unit of fuel:
the fuel-indexed family never stabilises, which is the fuel-model image
of the JavaScript recursion diverging. -/
lemma cycStore_seed_length : ∀ (fuel level : Nat), (seed cycStore fuel rK level).length = fuel := by
  intro fuel
  induction fuel with
  | zero => intro level; rfl
  | succ n ih =>
    intro level
    have hv : hasVisibleChildren cycElem = true := rfl
    rw [seed_of_found (show cycStore rK = some cycElem from rfl), if_pos hv]
    simp [childKeys, cycElem, ih]

/-- C2 (code bug): the walk has no visited-set.  On a store whose
expanded root lists the same child twice, the child's identity appears
twice in the flattened key sequence, refuting "each identity appears at
most once"; and on a store with a cycle among expanded nodes the walk
does not terminate: at every fuel bound the walk is still growing (one
row per unit of fuel), so the fuel-indexed family has no limit. -/
theorem C2_no_visited_set :
    ((setProps dupStore 3 (some rK)).flatKeys = [rK, cK, cK] ∧
      (setProps dupStore 3 (some rK)).flatKeys.count cK = 2) ∧
    (∀ fuel, (seed cycStore fuel rK 1).length = fuel) := by
  refine ⟨⟨by decide, by decide⟩, fun fuel => cycStore_seed_length fuel 1⟩

/-- C3: absent identities are skips, never errors: a null root yields
the empty projection (no rows, no keys, depth 0); an identity missing
from the store contributes no row and no subtree; and a sibling walk is
unchanged by deleting the missing identities from the child list, so
the rest of the traversal is unaffected. -/
theorem C3_missing_skipped (elements : Store) (fuel level : Nat) (key : ElementID)
    (cs : List ElementID) :
    (setProps elements fuel none = { flatElements := [], flatKeys := [], maxDepth := 0 }) ∧
    (elements key = none → seed elements fuel key level = []) ∧
    (cs.flatMap (fun c => seed elements fuel c level) =
      (cs.filter (fun c => (elements c).isSome)).flatMap
        (fun c => seed elements fuel c level)) := by
  refine ⟨rfl, fun h => seed_of_missing h fuel level, ?_⟩
  induction cs with
  | nil => rfl
  | cons c cs ih =>
    rw [List.flatMap_cons, List.filter_cons]
    cases hc : elements c with
    | none =>
      rw [seed_of_missing hc, List.nil_append]
      simpa [hc] using ih
    | some e =>
      simp only [Option.isSome_some, if_pos, List.flatMap_cons, ih]

/-- Witness for C3: the spec example store with the absent key `z`. -/
theorem C3_missing_skipped_witness :
    store1 zK = none ∧
    ((setProps store1 2 none = { flatElements := [], flatKeys := [], maxDepth := 0 }) ∧
    (store1 zK = none → seed store1 2 zK 1 = []) ∧
    ([bK, zK, cK].flatMap (fun c => seed store1 2 c 1) =
      ([bK, zK, cK].filter (fun c => (store1 c).isSome)).flatMap
        (fun c => seed store1 2 c 1))) :=
  ⟨rfl, C3_missing_skipped store1 2 1 zK [bK, zK, cK]⟩

/-! ### Facts about `jsIndexOf` and the `onKeyDown` guards -/

lemma jsIndexOf_lt_length :
    ∀ {l : List ElementID} {a : ElementID} {i : Nat}, jsIndexOf l a = some i → i < l.length := by
  intro l
  induction l with
  | nil => intro a i h; simp [jsIndexOf] at h
  | cons x xs ih =>
    intro a i h
    by_cases hx : x = a
    · rw [jsIndexOf, if_pos hx] at h
      injection h with h
      simp [← h]
    · rw [jsIndexOf, if_neg hx] at h
      obtain ⟨i2, hi2, rfl⟩ := Option.map_eq_some'.mp h
      have := ih hi2
      simp only [List.length_cons]
      omega

lemma jsIndexOf_mem :
    ∀ {l : List ElementID} {a : ElementID} {i : Nat}, jsIndexOf l a = some i → a ∈ l := by
  intro l
  induction l with
  | nil => intro a i h; simp [jsIndexOf] at h
  | cons x xs ih =>
    intro a i h
    by_cases hx : x = a
    · rw [hx]; exact List.mem_cons_self _ _
    · rw [jsIndexOf, if_neg hx] at h
      obtain ⟨i2, hi2, rfl⟩ := Option.map_eq_some'.mp h
      exact List.mem_cons_of_mem _ (ih hi2)

/-- A key occurring in the flattened key sequence of `setProps` is
present in the store (so the third `onKeyDown` guard passes). -/
lemma flatKeys_mem_store {elements : Store} {fuel : Nat} {root : Option ElementID}
    {sel : ElementID} (h : sel ∈ (setProps elements fuel root).flatKeys) :
    ∃ e, elements sel = some e := by
  simp only [setProps] at h
  obtain ⟨r, hr, rfl⟩ := List.mem_map.mp h
  cases root with
  | none => simp [setPropsFlatElements] at hr
  | some rt =>
    simp only [setPropsFlatElements] at hr
    exact ⟨r.element, mem_seed_store fuel hr⟩

lemma onKeyDown_arrowUp_eq {elements : Store} {flatElements : List FlatElement}
    {flatKeys : List ElementID} {sel : ElementID} {i : Nat} {e : Element}
    (hidx : jsIndexOf flatKeys sel = some i) (hel : elements sel = some e) :
    onKeyDown elements flatElements flatKeys (some sel) KeyEvt.arrowUp =
      (if i = 0 ∨ flatKeys.length = 1 then .ok []
       else .ok [.select (flatKeys.getD (i - 1) default)]) := by
  simp only [onKeyDown, hidx, hel]

lemma onKeyDown_arrowDown_eq {elements : Store} {flatElements : List FlatElement}
    {flatKeys : List ElementID} {sel : ElementID} {i : Nat} {e : Element}
    (hidx : jsIndexOf flatKeys sel = some i) (hel : elements sel = some e) :
    onKeyDown elements flatElements flatKeys (some sel) KeyEvt.arrowDown =
      (if i = flatKeys.length - 1 then .ok []
       else .ok [.select (flatKeys.getD (i + 1) default)]) := by
  simp only [onKeyDown, hidx, hel]

lemma onKeyDown_arrowLeft_eq {elements : Store} {flatElements : List FlatElement}
    {flatKeys : List ElementID} {sel : ElementID} {i : Nat} {e : Element}
    (hidx : jsIndexOf flatKeys sel = some i) (hel : elements sel = some e) :
    onKeyDown elements flatElements flatKeys (some sel) KeyEvt.arrowLeft =
      (if e.expanded then .ok [.setExpanded sel false]
       else
        match scanBack flatElements flatKeys
            ((flatElements.getD i default).level - 1) i with
        | some parentKey =>
          if parentKey ≠ "" then .ok [.select parentKey] else .ok []
        | none => .ok []) := by
  simp only [onKeyDown, hidx, hel]

lemma onKeyDown_arrowRight_eq {elements : Store} {flatElements : List FlatElement}
    {flatKeys : List ElementID} {sel : ElementID} {i : Nat} {e : Element}
    (hidx : jsIndexOf flatKeys sel = some i) (hel : elements sel = some e) :
    onKeyDown elements flatElements flatKeys (some sel) KeyEvt.arrowRight =
      (match e.children with
       | none => .error .typeError
       | some cs =>
         if 0 < cs.length then
           if e.expanded then .ok [.select (cs.getD 0 default)]
           else .ok [.setExpanded sel false]
         else .ok []) := by
  simp only [onKeyDown, hidx, hel]

/-- C4: with the selected identity present in the flattened sequence at
index `i`, ArrowUp selects the key at `i - 1` exactly when `0 < i` and
otherwise emits nothing, ArrowDown selects the key at `i + 1` exactly
when `i + 1` is still a valid index and otherwise emits nothing, and
when the sequence has fewer than two rows both are no-ops. -/
theorem C4_move_previous_next (elements : Store) (fuel : Nat) (root sel : ElementID)
    (i : Nat)
    (h : jsIndexOf (setProps elements fuel (some root)).flatKeys sel = some i) :
    (onKeyDown elements (setProps elements fuel (some root)).flatElements
        (setProps elements fuel (some root)).flatKeys (some sel) KeyEvt.arrowUp =
      .ok (if 0 < i then
        [Effect.select ((setProps elements fuel (some root)).flatKeys.getD (i - 1) default)]
      else [])) ∧
    (onKeyDown elements (setProps elements fuel (some root)).flatElements
        (setProps elements fuel (some root)).flatKeys (some sel) KeyEvt.arrowDown =
      .ok (if i + 1 < (setProps elements fuel (some root)).flatKeys.length then
        [Effect.select ((setProps elements fuel (some root)).flatKeys.getD (i + 1) default)]
      else [])) ∧
    ((setProps elements fuel (some root)).flatKeys.length < 2 →
      onKeyDown elements (setProps elements fuel (some root)).flatElements
          (setProps elements fuel (some root)).flatKeys (some sel) KeyEvt.arrowUp = .ok [] ∧
      onKeyDown elements (setProps elements fuel (some root)).flatElements
          (setProps elements fuel (some root)).flatKeys (some sel) KeyEvt.arrowDown = .ok []) := by
  obtain ⟨e, hel⟩ := flatKeys_mem_store (jsIndexOf_mem h)
  have hlen := jsIndexOf_lt_length h
  have hup := @onKeyDown_arrowUp_eq elements
    (setProps elements fuel (some root)).flatElements
    (setProps elements fuel (some root)).flatKeys sel i e h hel
  have hdown := @onKeyDown_arrowDown_eq elements
    (setProps elements fuel (some root)).flatElements
    (setProps elements fuel (some root)).flatKeys sel i e h hel
  refine ⟨?_, ?_, ?_⟩
  · rw [hup]
    by_cases h0 : 0 < i
    · rw [if_neg (by omega), if_pos h0]
    · rw [if_pos (Or.inl (by omega)), if_neg h0]
  · rw [hdown]
    by_cases h1 : i + 1 < (setProps elements fuel (some root)).flatKeys.length
    · rw [if_neg (by omega), if_pos h1]
    · rw [if_pos (by omega), if_neg h1]
  · intro hsmall
    constructor
    · rw [hup, if_pos (Or.inl (by omega))]
    · rw [hdown, if_pos (by omega)]

/-- Witness for C4: selection on `B` (index 1) in the spec example. -/
theorem C4_move_previous_next_witness :
    jsIndexOf (setProps store1 5 (some aK)).flatKeys bK = some 1 ∧
    ((onKeyDown store1 (setProps store1 5 (some aK)).flatElements
        (setProps store1 5 (some aK)).flatKeys (some bK) KeyEvt.arrowUp =
      .ok (if 0 < 1 then
        [Effect.select ((setProps store1 5 (some aK)).flatKeys.getD (1 - 1) default)]
      else [])) ∧
    (onKeyDown store1 (setProps store1 5 (some aK)).flatElements
        (setProps store1 5 (some aK)).flatKeys (some bK) KeyEvt.arrowDown =
      .ok (if 1 + 1 < (setProps store1 5 (some aK)).flatKeys.length then
        [Effect.select ((setProps store1 5 (some aK)).flatKeys.getD (1 + 1) default)]
      else [])) ∧
    ((setProps store1 5 (some aK)).flatKeys.length < 2 →
      onKeyDown store1 (setProps store1 5 (some aK)).flatElements
          (setProps store1 5 (some aK)).flatKeys (some bK) KeyEvt.arrowUp = .ok [] ∧
      onKeyDown store1 (setProps store1 5 (some aK)).flatElements
          (setProps store1 5 (some aK)).flatKeys (some bK) KeyEvt.arrowDown = .ok [])) :=
  ⟨by decide, C4_move_previous_next store1 5 aK bK 1 (by decide)⟩

/-- The index the ArrowLeft backward scan stops at: the greatest
`j ≤ i` whose row level equals the level of row `i` minus one. -/
def parentScanIndex (flatElements : List FlatElement) (i : Nat) : Nat :=
  Nat.findGreatest
    (fun j => (flatElements.getD j default).level = (flatElements.getD i default).level - 1) i

/-- `scanBack` is the key at the greatest index `≤ i` whose level is the
target, when one exists. -/
lemma scanBack_eq (flatElements : List FlatElement) (flatKeys : List ElementID)
    (targetLevel : Nat) :
    ∀ i, scanBack flatElements flatKeys targetLevel i =
      (if (flatElements.getD
            (Nat.findGreatest (fun j => (flatElements.getD j default).level = targetLevel) i)
            default).level = targetLevel then
        some (flatKeys.getD
          (Nat.findGreatest (fun j => (flatElements.getD j default).level = targetLevel) i)
          default)
      else none) := by
  intro i
  induction i with
  | zero => rw [scanBack, Nat.findGreatest_zero]
  | succ n ih =>
    rw [scanBack]
    by_cases hp : (flatElements.getD (n + 1) default).level = targetLevel
    · have heq : Nat.findGreatest
          (fun j => (flatElements.getD j default).level = targetLevel) (n + 1) = n + 1 :=
        Nat.findGreatest_eq hp
      rw [if_pos hp, heq, if_pos hp]
    · have heq : Nat.findGreatest
          (fun j => (flatElements.getD j default).level = targetLevel) (n + 1) =
          Nat.findGreatest (fun j => (flatElements.getD j default).level = targetLevel) n :=
        Nat.findGreatest_of_not hp
      rw [if_neg hp, ih, heq]

/-- C5 counterexample: in the store rooted at the empty-string identity,
the collapsed child's ArrowLeft scan finds the parent row (index 0, at
the target level, key `""`), yet the code emits nothing: the
`if (parentKey)` truthiness test rejects the empty-string key, so the
found row is not selected. -/
theorem C5_counterexample :
    ((setProps emptyKeyStore 3 (some emptyK)).flatElements.getD 0 default).level + 1 =
      ((setProps emptyKeyStore 3 (some emptyK)).flatElements.getD 1 default).level ∧
    (setProps emptyKeyStore 3 (some emptyK)).flatKeys.getD 0 default = emptyK ∧
    jsIndexOf (setProps emptyKeyStore 3 (some emptyK)).flatKeys aK = some 1 ∧
    (leafElem "A".data).expanded = false ∧
    scanBack (setProps emptyKeyStore 3 (some emptyK)).flatElements
      (setProps emptyKeyStore 3 (some emptyK)).flatKeys 1 1 = some emptyK ∧
    onKeyDown emptyKeyStore (setProps emptyKeyStore 3 (some emptyK)).flatElements
      (setProps emptyKeyStore 3 (some emptyK)).flatKeys (some aK) KeyEvt.arrowLeft ≠
        Except.ok [Effect.select emptyK] ∧
    onKeyDown emptyKeyStore (setProps emptyKeyStore 3 (some emptyK)).flatElements
      (setProps emptyKeyStore 3 (some emptyK)).flatKeys (some aK) KeyEvt.arrowLeft =
        Except.ok [] := by
  refine ⟨by decide, by decide, by decide, by decide, rfl, ?_, rfl⟩
  have heval : onKeyDown emptyKeyStore (setProps emptyKeyStore 3 (some emptyK)).flatElements
      (setProps emptyKeyStore 3 (some emptyK)).flatKeys (some aK) KeyEvt.arrowLeft =
        Except.ok [] := rfl
  rw [heval]
  simp

/-- C5 (amended): for a selected identity at index `i` whose element is
in the store, ArrowLeft requests `setExpanded(selected, false)` when the
element's expansion flag is true, touching the selection in no other
way; otherwise it scans backward from the selected row for the nearest
row whose level is the selected row's level minus one and selects that
row's identity if such a row is found *and* its identity is a non-empty
string (the code tests the found key with JavaScript truthiness, so an
empty-string identity is never selected); in every other case it is a
no-op. -/
theorem C5_collapse_or_jump_to_parent (elements : Store)
    (flatElements : List FlatElement) (flatKeys : List ElementID) (sel : ElementID)
    (i : Nat) (e : Element)
    (hidx : jsIndexOf flatKeys sel = some i) (hel : elements sel = some e) :
    onKeyDown elements flatElements flatKeys (some sel) KeyEvt.arrowLeft =
      (if e.expanded then .ok [.setExpanded sel false]
       else
        if (flatElements.getD (parentScanIndex flatElements i) default).level =
            (flatElements.getD i default).level - 1 then
          (if flatKeys.getD (parentScanIndex flatElements i) default ≠ "" then
            .ok [.select (flatKeys.getD (parentScanIndex flatElements i) default)]
          else .ok [])
        else .ok []) := by
  rw [onKeyDown_arrowLeft_eq hidx hel]
  by_cases hexp : e.expanded
  · rw [if_pos hexp, if_pos hexp]
  · rw [if_neg hexp, if_neg hexp, scanBack_eq]
    simp only [parentScanIndex]
    by_cases hfound : (flatElements.getD
        (Nat.findGreatest
          (fun j => (flatElements.getD j default).level = (flatElements.getD i default).level - 1)
          i) default).level = (flatElements.getD i default).level - 1
    · rw [if_pos hfound, if_pos hfound]
    · rw [if_neg hfound, if_neg hfound]

/-- Witness for the amended C5: `D` selected in the spec example (index
2, collapsed); the scan finds `B` and selects it. -/
theorem C5_collapse_or_jump_to_parent_witness :
    jsIndexOf (setProps store1 5 (some aK)).flatKeys dK = some 2 ∧
    store1 dK = some elemD ∧
    onKeyDown store1 (setProps store1 5 (some aK)).flatElements
      (setProps store1 5 (some aK)).flatKeys (some dK) KeyEvt.arrowLeft =
      (if elemD.expanded then .ok [.setExpanded dK false]
       else
        if ((setProps store1 5 (some aK)).flatElements.getD
            (parentScanIndex (setProps store1 5 (some aK)).flatElements 2) default).level =
            ((setProps store1 5 (some aK)).flatElements.getD 2 default).level - 1 then
          (if (setProps store1 5 (some aK)).flatKeys.getD
              (parentScanIndex (setProps store1 5 (some aK)).flatElements 2) default ≠ "" then
            .ok [.select ((setProps store1 5 (some aK)).flatKeys.getD
              (parentScanIndex (setProps store1 5 (some aK)).flatElements 2) default)]
          else .ok [])
        else .ok []) :=
  ⟨by decide, rfl,
    C5_collapse_or_jump_to_parent store1 (setProps store1 5 (some aK)).flatElements
      (setProps store1 5 (some aK)).flatKeys dK 2 elemD (by decide) rfl⟩

/-- C6 (code bug): ArrowRight reads `selectedElement.children.length`
with no null check, so on a selected node whose `children` field is
null/absent it throws a TypeError instead of being a no-op — even
though such a node flattens fine (the walk guards the same field). -/
theorem C6_null_children_throws :
    nullChildrenElem.children = none ∧
    (setProps nullChildrenStore 2 (some rK)).flatKeys = [rK] ∧
    onKeyDown nullChildrenStore (setProps nullChildrenStore 2 (some rK)).flatElements
      (setProps nullChildrenStore 2 (some rK)).flatKeys (some rK) KeyEvt.arrowRight =
      Except.error JsError.typeError :=
  ⟨rfl, by decide, rfl⟩

lemma countLoop_eq_takeWhile (rowLevel : Nat) (l : List FlatElement) :
    countLoop rowLevel l = (l.takeWhile (fun c => decide (rowLevel < c.level))).length := by
  induction l with
  | nil => rfl
  | cons c rest ih =>
    rw [countLoop, List.takeWhile_cons]
    by_cases hc : c.level ≤ rowLevel
    · rw [if_pos hc, decide_eq_false (by omega)]
      rfl
    · rw [if_neg hc, decide_eq_true (by omega)]
      simp [ih]
      omega

/-- C7: `buildRow`'s childrenCount for the row at `index` is the length
of the longest run of rows after `index` whose levels strictly exceed
that row's level (the loop stops at the first level `≤` it); and in a
flattened sequence a row whose element is collapsed or childless gets
childrenCount 0. -/
theorem C7_children_count (flatElements : List FlatElement) (index : Nat)
    (elements : Store) (fuel : Nat) (root : ElementID) (i : Nat) :
    (buildRowChildrenCount flatElements (flatElements.getD index default) index =
      ((flatElements.drop (index + 1)).takeWhile
        (fun c => decide ((flatElements.getD index default).level < c.level))).length) ∧
    (i < (seed elements fuel root 1).length →
      hasVisibleChildren ((seed elements fuel root 1).getD i default).element = false →
      buildRowChildrenCount (seed elements fuel root 1)
        ((seed elements fuel root 1).getD i default) i = 0) := by
  constructor
  · exact countLoop_eq_takeWhile _ _
  · intro hlen hcol
    by_cases hnext : i + 1 < (seed elements fuel root 1).length
    · have hle := seed_collapsed_next i hnext hcol
      rw [buildRowChildrenCount, List.drop_eq_getElem_cons hnext]
      rw [← List.getD_eq_getElem _ default hnext] at *
      rw [countLoop, if_pos hle]
    · rw [buildRowChildrenCount, List.drop_eq_nil_of_le (by omega)]
      rfl

/-- Witness for C7: row `A` (index 0, childrenCount 3) and row `C`
(index 3, a leaf, childrenCount 0) in the spec example. -/
theorem C7_children_count_witness :
    (3 < (seed store1 5 aK 1).length ∧
      hasVisibleChildren ((seed store1 5 aK 1).getD 3 default).element = false) ∧
    ((buildRowChildrenCount (setProps store1 5 (some aK)).flatElements
        ((setProps store1 5 (some aK)).flatElements.getD 0 default) 0 =
      (((setProps store1 5 (some aK)).flatElements.drop (0 + 1)).takeWhile
        (fun c => decide
          (((setProps store1 5 (some aK)).flatElements.getD 0 default).level < c.level))).length) ∧
    (3 < (seed store1 5 aK 1).length →
      hasVisibleChildren ((seed store1 5 aK 1).getD 3 default).element = false →
      buildRowChildrenCount (seed store1 5 aK 1)
        ((seed store1 5 aK 1).getD 3 default) 3 = 0)) :=
  ⟨⟨by decide, by decide⟩,
    C7_children_count (setProps store1 5 (some aK)).flatElements 0 store1 5 aK 3⟩

/-- The search-result set used by witnesses: query `d`, matching `D`. -/
def searchSetD : ElementSearchResultSet :=
  { query := "d".data, matchKeys := [dK] }

/-- C8: highlighting is narrowed exactly as specified.  A matched row
receives the literal query; the row name and the values of attributes
named exactly `id` or `addr` put that query through the substring
highlighter, every other attribute value is rendered whole no matter
its content; a null or empty query (and a query the content does not
contain case-insensitively) highlights nothing; and when a non-empty
query does occur case-insensitively in the content, the highlighter
splits it. -/
theorem C8_highlight_narrowing (s : ElementSearchResultSet) (key : ElementID)
    (name : String) (value content h : List Char) (e : Element)
    (q : Option (List Char)) :
    (s.matchKeys.contains key = true → rowMatchingSearchQuery (some s) key = some s.query) ∧
    (s.matchKeys.contains key = false → rowMatchingSearchQuery (some s) key = none) ∧
    (rowRenderedName e q = highlightRender e.name q) ∧
    ((name = "id" ∨ name = "addr") →
      attributeRenderedValue name value q = highlightRender value q) ∧
    (name ≠ "id" → name ≠ "addr" →
      attributeRenderedValue name value q = Rendered.whole value) ∧
    (highlightRender content none = Rendered.whole content) ∧
    (highlightRender content (some []) = Rendered.whole content) ∧
    (h ≠ [] → jsIncludes (toLowerList content) (toLowerList h) = false →
      highlightRender content (some h) = Rendered.whole content) ∧
    (content ≠ [] → h ≠ [] → jsIncludes (toLowerList content) (toLowerList h) = true →
      ∃ b m a, highlightRender content (some h) = Rendered.split b m a) := by
  refine ⟨?_, ?_, rfl, ?_, ?_, rfl, ?_, ?_, ?_⟩
  · intro hm
    simp only [rowMatchingSearchQuery, hm]
    simp
  · intro hm
    simp only [rowMatchingSearchQuery, hm]
    simp
  · intro hn; simp [attributeRenderedValue, attributeHighlighted, hn]
  · intro h1 h2
    rw [attributeRenderedValue, attributeHighlighted, if_neg (by simp [h1, h2])]
    simp [highlightRender]
  · simp [highlightRender]
  · intro h1 h2
    rw [highlightRender, if_neg (by simp [h2])]
  · intro h1 h2 h3
    simp only [highlightRender]
    rw [if_pos ⟨h1, h2, h3⟩]
    exact ⟨_, _, _, rfl⟩

/-- Witness for C8 at the spec's search example: query `d`, matched row
`D`, an `id` attribute, an unrelated attribute name `text`. -/
theorem C8_highlight_narrowing_witness :
    searchSetD.matchKeys.contains dK = true ∧
    "D".data ≠ ([] : List Char) ∧ "d".data ≠ ([] : List Char) ∧
    jsIncludes (toLowerList "D".data) (toLowerList "d".data) = true ∧
    ((searchSetD.matchKeys.contains dK = true →
      rowMatchingSearchQuery (some searchSetD) dK = some searchSetD.query) ∧
    (searchSetD.matchKeys.contains dK = false →
      rowMatchingSearchQuery (some searchSetD) dK = none) ∧
    (rowRenderedName elemD (some "d".data) = highlightRender elemD.name (some "d".data)) ∧
    (("text" = "id" ∨ "text" = "addr") →
      attributeRenderedValue "text" "d0".data (some "d".data) =
        highlightRender "d0".data (some "d".data)) ∧
    ("text" ≠ "id" → "text" ≠ "addr" →
      attributeRenderedValue "text" "d0".data (some "d".data) = Rendered.whole "d0".data) ∧
    (highlightRender "D".data none = Rendered.whole "D".data) ∧
    (highlightRender "D".data (some []) = Rendered.whole "D".data) ∧
    ("d".data ≠ [] → jsIncludes (toLowerList "D".data) (toLowerList "d".data) = false →
      highlightRender "D".data (some "d".data) = Rendered.whole "D".data) ∧
    ("D".data ≠ [] → "d".data ≠ [] →
      jsIncludes (toLowerList "D".data) (toLowerList "d".data) = true →
      ∃ b m a, highlightRender "D".data (some "d".data) = Rendered.split b m a)) :=
  ⟨by decide, by decide, by decide, by decide,
    C8_highlight_narrowing searchSetD dK "text" "d0".data "D".data "d".data elemD
      (some "d".data)⟩

/-- C9: with a null selection, a selection absent from the flattened
key sequence, or a selection absent from the store, every key event is
a silent no-op: no selection change, no expansion request, no clipboard
write, and no exception. -/
theorem C9_navigator_guards (elements : Store) (flatElements : List FlatElement)
    (flatKeys : List ElementID) (sel : ElementID) (evt : KeyEvt) :
    (onKeyDown elements flatElements flatKeys none evt = .ok []) ∧
    (jsIndexOf flatKeys sel = none →
      onKeyDown elements flatElements flatKeys (some sel) evt = .ok []) ∧
    (elements sel = none →
      onKeyDown elements flatElements flatKeys (some sel) evt = .ok []) := by
  refine ⟨rfl, fun h => ?_, fun h => ?_⟩
  · simp only [onKeyDown, h]
  · cases hidx : jsIndexOf flatKeys sel with
    | none => simp only [onKeyDown, hidx]
    | some i => simp only [onKeyDown, hidx, h]

/-- Witness for C9: the copy shortcut with an empty projection and the
absent key `z`. -/
theorem C9_navigator_guards_witness :
    jsIndexOf ([] : List ElementID) zK = none ∧ store1 zK = none ∧
    ((onKeyDown store1 [] [] none KeyEvt.copyKey = .ok []) ∧
    (jsIndexOf ([] : List ElementID) zK = none →
      onKeyDown store1 [] [] (some zK) KeyEvt.copyKey = .ok []) ∧
    (store1 zK = none →
      onKeyDown store1 [] [] (some zK) KeyEvt.copyKey = .ok [])) :=
  ⟨rfl, rfl, C9_navigator_guards store1 [] [] zK KeyEvt.copyKey⟩

lemma toLowerList_take (n : Nat) (l : List Char) :
    toLowerList (l.take n) = (toLowerList l).take n := by
  simp [toLowerList, List.map_take]

lemma toLowerList_drop (n : Nat) (l : List Char) :
    toLowerList (l.drop n) = (toLowerList l).drop n := by
  simp [toLowerList, List.map_drop]

/-- Bool-level prefix test versus propositional prefix. -/
lemma isPrefixOf_true_iff {t l : List Char} : t.isPrefixOf l = true ↔ t <+: l :=
  List.isPrefixOf_iff_prefix

/-- `strIndexOf` finds an occurrence, and the first one: the needle is
a prefix of the suffix at the returned index and of no earlier suffix. -/
lemma strIndexOf_spec :
    ∀ {s t : List Char} {k : Nat}, strIndexOf s t = some k →
      t <+: s.drop k ∧ ∀ j, j < k → ¬ t <+: s.drop j := by
  intro s
  induction s with
  | nil =>
    intro t k h
    rw [strIndexOf] at h
    by_cases hp : t.isPrefixOf ([] : List Char)
    · rw [if_pos hp] at h
      injection h with h
      subst h
      exact ⟨isPrefixOf_true_iff.mp hp, fun j hj => by omega⟩
    · rw [if_neg hp] at h
      simp at h
  | cons c s ih =>
    intro t k h
    rw [strIndexOf] at h
    by_cases hp : t.isPrefixOf (c :: s)
    · rw [if_pos hp] at h
      injection h with h
      subst h
      exact ⟨isPrefixOf_true_iff.mp hp, fun j hj => by omega⟩
    · rw [if_neg hp] at h
      obtain ⟨k2, hk2, rfl⟩ := Option.map_eq_some'.mp h
      obtain ⟨h1, h2⟩ := ih hk2
      refine ⟨by simpa [List.drop_succ_cons] using h1, ?_⟩
      intro j hj
      cases j with
      | zero =>
        simpa using fun hcontra => hp (isPrefixOf_true_iff.mpr hcontra)
      | succ j2 =>
        simpa [List.drop_succ_cons] using h2 j2 (by omega)

/-- C10: when the query is non-null, non-empty, and occurs
case-insensitively in the content, `PartialHighlight` splits the
content into three segments that concatenate back to exactly the
content; the middle segment has the query's length, is the query up to
case, and starts at the first case-insensitive occurrence (no earlier
suffix has the lowered query as a prefix); otherwise the content is
rendered whole and unmodified. -/
theorem C10_highlight_split_invariant (content h : List Char) :
    (h ≠ [] → jsIncludes (toLowerList content) (toLowerList h) = true →
      ∃ b m a, highlightRender content (some h) = Rendered.split b m a ∧
        b ++ m ++ a = content ∧
        m.length = h.length ∧
        strIndexOf (toLowerList content) (toLowerList h) = some b.length ∧
        toLowerList m = toLowerList h ∧
        ∀ j, j < b.length → ¬ toLowerList h <+: (toLowerList content).drop j) ∧
    ((h = [] ∨ jsIncludes (toLowerList content) (toLowerList h) = false) →
      highlightRender content (some h) = Rendered.whole content) := by
  constructor
  · intro hne hinc
    have hinc0 := hinc
    simp only [jsIncludes] at hinc
    obtain ⟨k, hk⟩ := Option.isSome_iff_exists.mp hinc
    obtain ⟨hpre, hmin⟩ := strIndexOf_spec hk
    have htne : toLowerList h ≠ [] := by
      simpa [toLowerList] using hne
    have hk_lt : k < (toLowerList content).length := by
      by_contra hge
      push_neg at hge
      rw [List.drop_eq_nil_of_le hge] at hpre
      obtain ⟨r, hr⟩ := hpre
      exact htne (List.append_eq_nil.mp hr).1
    have hlc : (toLowerList content).length = content.length := by simp [toLowerList]
    have hlh : (toLowerList h).length = h.length := by simp [toLowerList]
    have hklen : k + h.length ≤ content.length := by
      have h1 := hpre.length_le
      rw [List.length_drop, hlh, hlc] at h1
      rw [hlc] at hk_lt
      omega
    have hcne : content ≠ [] := by
      intro hc
      rw [hc] at hk_lt
      simp [toLowerList] at hk_lt
    have heval : highlightRender content (some h) =
        Rendered.split (content.take k) ((content.take (k + h.length)).drop k)
          (content.drop (k + h.length)) := by
      simp only [highlightRender]
      rw [if_pos ⟨hcne, hne, hinc0⟩, hk]
      simp only [Option.getD_some]
    refine ⟨content.take k, (content.take (k + h.length)).drop k,
      content.drop (k + h.length), heval, ?_, ?_, ?_, ?_, ?_⟩
    · rw [List.drop_take, show k + h.length - k = h.length by omega,
        ← List.drop_drop, List.append_assoc, List.take_append_drop, List.take_append_drop]
    · rw [List.length_drop, List.length_take]
      omega
    · rw [List.length_take, show min k content.length = k by omega]
      exact hk
    · obtain ⟨r, hr⟩ := hpre
      have hpre2 : toLowerList h = List.take h.length (List.drop k (toLowerList content)) := by
        rw [← hr, ← hlh, List.take_left]
      rw [List.drop_take, show k + h.length - k = h.length by omega,
        toLowerList_take, toLowerList_drop]
      exact hpre2.symm
    · intro j hj
      rw [List.length_take] at hj
      exact hmin j (by omega)
  · intro hor
    rcases hor with rfl | hinc
    · simp [highlightRender]
    · simp only [highlightRender]
      rw [if_neg]
      exact fun hc => by simp [hc.2.2] at hinc

/-- Witness for C10: content `Hello World`, query `o w`. -/
theorem C10_highlight_split_invariant_witness :
    "o w".data ≠ ([] : List Char) ∧
    jsIncludes (toLowerList "Hello World".data) (toLowerList "o w".data) = true ∧
    (("o w".data ≠ ([] : List Char) →
      jsIncludes (toLowerList "Hello World".data) (toLowerList "o w".data) = true →
      ∃ b m a, highlightRender "Hello World".data (some "o w".data) = Rendered.split b m a ∧
        b ++ m ++ a = "Hello World".data ∧
        m.length = "o w".data.length ∧
        strIndexOf (toLowerList "Hello World".data) (toLowerList "o w".data) = some b.length ∧
        toLowerList m = toLowerList "o w".data ∧
        ∀ j, j < b.length →
          ¬ toLowerList "o w".data <+: (toLowerList "Hello World".data).drop j) ∧
    (("o w".data = [] ∨
        jsIncludes (toLowerList "Hello World".data) (toLowerList "o w".data) = false) →
      highlightRender "Hello World".data (some "o w".data) =
        Rendered.whole "Hello World".data)) :=
  ⟨by decide, by decide, C10_highlight_split_invariant "Hello World".data "o w".data⟩

end Flipper
